import Mathlib

/-!
Verification of the line-oriented pager in `melvin.py`.

The file content is modelled as a `List Char` (one entry per byte of the
text file; the line terminator is the single character `'\n'`, matching the
source, which opens files in text mode and splits on `'\n'`).  Seek/read on
the file handle are modelled by `List.drop`/`List.take`, and the handle's
read position is threaded explicitly through the `Pager` operations that
use it (`down` reads from the handle's current position; `reverse_readline`
and `get_page` seek before reading).
-/

namespace Melvin

/-- Python `str.split('\n')` on a character list: splits on every `'\n'`,
never returns an empty list, and yields an empty trailing segment when the
input ends with `'\n'` (and the segment `[]` itself on empty input). -/
def splitNl : List Char → List (List Char)
  | [] => [[]]
  | c :: rest =>
    if c = '\n' then [] :: splitNl rest
    else
      match splitNl rest with
      | [] => [[c]]
      | s :: ss => (c :: s) :: ss

theorem splitNl_ne_nil (l : List Char) : splitNl l ≠ [] := by
  cases l with
  | nil => simp [splitNl]
  | cons c rest =>
    simp only [splitNl]
    split
    · simp
    · cases h : splitNl rest <;> simp

theorem splitNl_append_newline (l : List Char) :
    splitNl (l ++ ['\n']) = splitNl l ++ [[]] := by
  induction l with
  | nil => simp [splitNl]
  | cons c rest ih =>
    by_cases hc : c = '\n'
    · subst hc
      simp [splitNl, ih]
    · simp only [List.cons_append, splitNl, if_neg hc, List.append_eq]
      rw [ih]
      cases h : splitNl rest with
      | nil => exact absurd h (splitNl_ne_nil rest)
      | cons s ss => simp

/-- Reading `n` bytes after seeking to byte position `pos`
(`fh.seek(pos); fh.read(n)`): fewer than `n` bytes come back when the file
ends first. -/
def fileRead (c : List Char) (pos n : Nat) : List Char :=
  (c.drop pos).take n

/-- Embedding of `reverse_readline(fh, start_pos, buf_size=8192)`
(melvin.py lines 303-315): seek to `start_pos`, let `remaining_size` be the
resulting `tell()`, read the `chunk_size = min(remaining_size, buf_size)`
bytes that precede `start_pos`, split on the terminator and return the last
segment (the guard for an empty split list is kept although `split` never
produces one). -/
def reverse_readline (c : List Char) (start_pos : Nat)
    (buf_size : Nat := 8192) : List Char :=
  let remaining_size := start_pos
  let chunk_size := min remaining_size buf_size
  let buff := fileRead c (remaining_size - chunk_size) chunk_size
  let lines := splitNl buff
  if h : lines = [] then [] else lines.getLast h

/-- The Scanner contract as the spec words it: seek to
`max(0, offset - 8192)` (truncated subtraction on `Nat`), read
`min(offset, 8192)` bytes, split on the terminator, return the last
segment. -/
def spec_reverse_readline (c : List Char) (offset : Nat) : List Char :=
  let window := fileRead c (offset - 8192) (min offset 8192)
  (splitNl window).getLastD []

theorem getLast_eq_getLastD {α : Type} (l : List α) (h : l ≠ []) (d : α) :
    l.getLast h = l.getLastD d := by
  cases l with
  | nil => exact absurd rfl h
  | cons a t => simp [List.getLastD_eq_getLast?, List.getLast?_eq_getLast]

theorem reverse_readline_eq_getLastD (c : List Char) (o : Nat) :
    reverse_readline c o
      = (splitNl (fileRead c (o - min o 8192) (min o 8192))).getLastD [] := by
  show (if h : splitNl (fileRead c (o - min o 8192) (min o 8192)) = [] then []
        else (splitNl (fileRead c (o - min o 8192) (min o 8192))).getLast h)
      = _
  split
  · exact absurd (by assumption) (splitNl_ne_nil _)
  · exact getLast_eq_getLastD _ _ _

/-- C3: `reverse_readline` agrees everywhere with the spec's description
(seek to `max(0, offset - 8192)`, read `min(offset, 8192)` bytes — exactly
that many whenever `offset` lies inside the file — split on the terminator
and return the last segment), and on empty input (offset 0) it returns the
empty string. -/
theorem reverse_readline_spec (c : List Char) (offset : Nat) :
    reverse_readline c offset = spec_reverse_readline c offset
    ∧ (offset ≤ c.length →
        (fileRead c (offset - 8192) (min offset 8192)).length
          = min offset 8192)
    ∧ reverse_readline c 0 = [] := by
  refine ⟨?_, ?_, ?_⟩
  · unfold reverse_readline spec_reverse_readline
    have harith : offset - min offset 8192 = offset - 8192 := by omega
    simp only [harith]
    split
    · exact absurd (by assumption) (splitNl_ne_nil _)
    · exact getLast_eq_getLastD _ _ _
  · intro hle
    simp only [fileRead, List.length_take, List.length_drop]
    omega
  · rfl

/-- Concrete five-byte test file `"ab\ncd"`. -/
def abcdFile : List Char := ['a', 'b', '\n', 'c', 'd']

/-- C3 witness: a concrete instantiation, on the file `"ab\ncd"` at
offset 3. -/
theorem reverse_readline_spec_witness :
    reverse_readline abcdFile 3 = spec_reverse_readline abcdFile 3
      ∧ (fileRead abcdFile (3 - 8192) (min 3 8192)).length = min 3 8192
      ∧ reverse_readline abcdFile 0 = [] := by
  obtain ⟨h1, h2, h3⟩ := reverse_readline_spec abcdFile 3
  exact ⟨h1, h2 (by decide), h3⟩

/-- Forward line read: the characters of `l` up to and including the first
`'\n'`, or all of `l` when no terminator remains (the final, unterminated
line), or `[]` at end of file — exactly what `fh.readline()` yields. -/
def takeLine : List Char → List Char
  | [] => []
  | c :: rest => if c = '\n' then [c] else c :: takeLine rest

/-- `fh.readline()` after the handle has been positioned at byte `pos`. -/
def readline (c : List Char) (pos : Nat) : List Char :=
  takeLine (c.drop pos)

/-- Tab expansion done during rendering:
`line.replace('\t', '    ')` (melvin.py line 254). -/
def expandTabs : List Char → List Char
  | [] => []
  | c :: rest => (if c = '\t' then [' ', ' ', ' ', ' '] else [c]) ++ expandTabs rest

/-- State of one `Pager` (melvin.py lines 228-301): the byte `marker`
(a Python int, hence `Int` — the clamps are what keep it non-negative) and
the open handle's current read position `pos`.  The file content and
`rows`/`last_page` are passed to each operation explicitly. -/
structure PagerS where
  marker : Int
  pos : Nat
deriving DecidableEq, Repr

/-- `Pager.up` (melvin.py lines 278-281): read the segment preceding
`marker` with `reverse_readline` (which leaves the handle back at
`marker`), move `marker` back by that segment's length plus one for the
terminator, and clamp at 0. -/
def pager_up (c : List Char) (s : PagerS) : PagerS :=
  let previous_line := reverse_readline c s.marker.toNat
  { marker := max 0 (s.marker - (previous_line.length + 1)),
    pos := s.marker.toNat }

/-- `Pager.down` (melvin.py lines 283-286): read one line forward from the
handle's current position, advance `marker` by its byte length, and clamp
at `last_page`. -/
def pager_down (c : List Char) (last_page : Int) (s : PagerS) : PagerS :=
  let next_line := readline c s.pos
  { marker := min last_page (s.marker + next_line.length),
    pos := s.pos + next_line.length }

/-- `Pager.home` (melvin.py lines 296-297). -/
def pager_home (s : PagerS) : PagerS :=
  { s with marker := 0 }

/-- Apply `f` the given number of times, first application first — the
`for i in range(n)` loops of `page_up`/`page_down`/`find_end`. -/
def iterateOp {α : Type} (f : α → α) : Nat → α → α
  | 0, s => s
  | n + 1, s => iterateOp f n (f s)

/-- `Pager.page_up` (melvin.py lines 288-290): `rows` consecutive `up`s. -/
def pager_page_up (c : List Char) (rows : Nat) (s : PagerS) : PagerS :=
  iterateOp (pager_up c) rows s

/-- `Pager.end` (melvin.py lines 299-301): jump the marker to the file
size (byte length), then `page_up`. -/
def pager_end (c : List Char) (rows : Nat) (s : PagerS) : PagerS :=
  pager_page_up c rows { s with marker := (c.length : Int) }

/-- `Pager.find_end` (melvin.py lines 261-273): the `last_page` boundary —
seek to the file size and apply `rows` backward steps; the marker itself is
restored afterwards, so only the computed offset is returned. -/
def find_end (c : List Char) (rows : Nat) : Int :=
  (pager_page_up c rows { marker := (c.length : Int), pos := c.length }).marker

/-- Loop body of `Pager.get_page` (melvin.py lines 250-255): read `n`
lines forward from byte `pos`, expanding tabs; at end of file `readline`
keeps returning the empty string. Returns the rendered entries and the
handle position after the reads. -/
def get_page_go (c : List Char) : Nat → Nat → List (List Char) × Nat
  | pos, 0 => ([], pos)
  | pos, n + 1 =>
    let line := readline c pos
    let rest := get_page_go c (pos + line.length) n
    (expandTabs line :: rest.1, rest.2)

/-- `Pager.get_page` (melvin.py lines 241-259): seek to `marker`, read
`rows` lines, then seek back to `marker`; returns the rendered entries and
the resulting pager state. -/
def pager_get_page (c : List Char) (rows : Nat) (s : PagerS) :
    List (List Char) × PagerS :=
  ((get_page_go c s.marker.toNat rows).1, { s with pos := s.marker.toNat })

/-- The two line-granular navigation commands quantified over in the
boundary-invariant property. -/
inductive Cmd
  | up
  | down
deriving DecidableEq, Repr

/-- Dispatch of one navigation command to a pager. -/
def step (c : List Char) (last_page : Int) : Cmd → PagerS → PagerS
  | Cmd.up => pager_up c
  | Cmd.down => pager_down c last_page

/-- Execute a sequence of navigation commands in order. -/
def runCmds (c : List Char) (last_page : Int) : List Cmd → PagerS → PagerS
  | [], s => s
  | k :: ks, s => runCmds c last_page ks (step c last_page k s)

/-- POSIX branch of `getheight()` (melvin.py lines 75-89): the detected
`ws_row` minus one. -/
def getheight (ws_row : Nat) : Int :=
  (ws_row : Int) - 1

/-- Per-pane row count chosen in `MultiPager.__init__` (melvin.py line
102): `rows = ((getheight() + 1) / len(files))`, Python 2 integer
division. Numerator and denominator are non-negative, where truncating and
flooring division agree, so Lean's `Int` division is faithful. -/
def multipager_rows (ws_row : Nat) (nfiles : Nat) : Int :=
  (getheight ws_row + 1) / (nfiles : Int)

/-- State of one pane: its pager plus the rendered text currently shown in
the widget (`PagerUI.text`). -/
structure PaneS where
  pager : PagerS
  rendered : List (List Char)
deriving DecidableEq, Repr

/-- `PagerUI.refresh` (melvin.py lines 173-174): re-render the pane's text
from its pager. -/
def pane_refresh (c : List Char) (rows : Nat) (p : PaneS) : PaneS :=
  let r := pager_get_page c rows p.pager
  { pager := r.2, rendered := r.1 }

/-- `PagerUI.search` (melvin.py lines 187-209) above the external-tool
boundary: the grep invocation and offset parsing are the external
collaborator, modelled by `grep_result` — `none` when the tool exits with
status 1 and no output (the `CalledProcessError` branch, which leaves
`offsets = []`), `some l` for the parsed byte offsets on success.  When
offsets are non-empty the focused pager's marker is set to the first one
and the pane is refreshed; otherwise nothing changes. -/
def pagerui_search (c : List Char) (rows : Nat) (p : PaneS)
    (grep_result : Option (List Nat)) : PaneS :=
  let offsets : List Nat := grep_result.getD []
  if offsets = [] then p
  else
    pane_refresh c rows
      { p with pager := { p.pager with marker := ((offsets.headD 0 : Nat) : Int) } }

/-- Loop splitting a file into its complete lines (terminators kept); the
fuel argument is the file length, enough since every line consumes at
least one byte. -/
def fileLinesGo : Nat → List Char → List (List Char)
  | 0, _ => []
  | _, [] => []
  | fuel + 1, l => takeLine l :: fileLinesGo fuel (l.drop (takeLine l).length)

/-- The complete lines of a file, terminators kept — the reference notion
of "a complete line of the file" used to judge rendered entries. -/
def fileLines (c : List Char) : List (List Char) :=
  fileLinesGo c.length c

/-- Concrete file `"aaa\nbbb\nccc"`: three lines, the third starting at
byte 8, its predecessor `"bbb"` starting at byte 4. -/
def c1file : List Char :=
  ['a', 'a', 'a', '\n', 'b', 'b', 'b', '\n', 'c', 'c', 'c']

/-- Concrete file `"a\nb\nc\nd\ne\n"`: five terminated two-byte lines. -/
def c4file : List Char :=
  ['a', '\n', 'b', '\n', 'c', '\n', 'd', '\n', 'e', '\n']

/-- Handle position after `n` forward `readline` calls starting at byte
`pos` — the position at which `get_page`'s loop reads its `n`-th entry. -/
def advanceLines (c : List Char) : Nat → Nat → Nat
  | pos, 0 => pos
  | pos, n + 1 => advanceLines c (pos + (readline c pos).length) n

theorem pager_up_marker_zero (c : List Char) (s : PagerS) (h : s.marker = 0) :
    (pager_up c s).marker = 0 := by
  simp only [pager_up, h]
  omega

theorem step_marker_bounds (c : List Char) (lp : Int) (hlp : 0 ≤ lp)
    (k : Cmd) (s : PagerS) (h0 : 0 ≤ s.marker) (h1 : s.marker ≤ lp) :
    0 ≤ (step c lp k s).marker ∧ (step c lp k s).marker ≤ lp := by
  cases k
  · simp only [step, pager_up]
    omega
  · simp only [step, pager_down]
    omega

theorem get_page_go_length (c : List Char) (n pos : Nat) :
    ((get_page_go c pos n).1).length = n := by
  induction n generalizing pos with
  | zero => rfl
  | succ n ih => simp [get_page_go, ih]

theorem get_page_go_past_eof (c : List Char) (n pos : Nat)
    (h : c.length ≤ pos) :
    (get_page_go c pos n).1 = List.replicate n [] := by
  induction n generalizing pos with
  | zero => rfl
  | succ n ih =>
    have hdrop : c.drop pos = [] := by
      simp [List.drop_eq_nil_iff, h]
    simp [get_page_go, readline, hdrop, takeLine, expandTabs,
      List.replicate_succ, ih pos h]

theorem get_page_go_entry_empty (c : List Char) (n : Nat) :
    ∀ pos i, i < n → c.length ≤ advanceLines c pos i →
      ((get_page_go c pos n).1).getD i [] = [] := by
  induction n with
  | zero =>
    intro pos i hi _
    omega
  | succ n ih =>
    intro pos i hi hadv
    cases i with
    | zero =>
      have hdrop : c.drop pos = [] := by
        simp only [List.drop_eq_nil_iff]
        exact hadv
      simp [get_page_go, readline, hdrop, takeLine, expandTabs]
    | succ j =>
      have h := ih (pos + (readline c pos).length) j (by omega) hadv
      simpa [get_page_go] using h

/-- C1: advancing `up()` from a marker at a line start whose preceding
line is short and terminated does NOT land on the preceding line's start.
On `"aaa\nbbb\nccc"` (line starts 0, 4, 8) a single `up()` from marker 8
yields marker 7 — the terminator byte of `"bbb\n"` — because the backward
scan returns the empty last split segment, not `"bbb"` (whose start, 4, is
what the claim requires). -/
theorem c1_up_from_line_start_eval :
    fileLines c1file
        = [['a', 'a', 'a', '\n'], ['b', 'b', 'b', '\n'], ['c', 'c', 'c']]
      ∧ reverse_readline c1file 8 = []
      ∧ (pager_up c1file { marker := 8, pos := 0 }).marker = 7 := by
  decide

/-- C2: starting from any marker in `[0, last_page]` (with
`0 ≤ last_page`), every finite sequence of `up`/`down` commands keeps the
marker inside `[0, last_page]`; quantifying over all command lists covers
the state after every call of any longer sequence. -/
theorem c2_marker_bounds (c : List Char) (lp : Int) (hlp : 0 ≤ lp)
    (s : PagerS) (h0 : 0 ≤ s.marker) (h1 : s.marker ≤ lp)
    (cmds : List Cmd) :
    0 ≤ (runCmds c lp cmds s).marker ∧ (runCmds c lp cmds s).marker ≤ lp := by
  induction cmds generalizing s with
  | nil => exact ⟨h0, h1⟩
  | cons k ks ih =>
    obtain ⟨g0, g1⟩ := step_marker_bounds c lp hlp k s h0 h1
    exact ih _ g0 g1

/-- C2 witness: a concrete bounded run on `"a\nb\nc\nd\ne\n"` with
`last_page = 5`, marker 2, and the command sequence up, down, down, up. -/
theorem c2_marker_bounds_witness :
    0 ≤ (runCmds c4file 5 [Cmd.up, Cmd.down, Cmd.down, Cmd.up]
          { marker := 2, pos := 0 }).marker
    ∧ (runCmds c4file 5 [Cmd.up, Cmd.down, Cmd.down, Cmd.up]
          { marker := 2, pos := 0 }).marker ≤ 5 :=
  c2_marker_bounds c4file 5 (by decide) { marker := 2, pos := 0 }
    (by decide) (by decide) [Cmd.up, Cmd.down, Cmd.down, Cmd.up]

/-- C4: `end()` then rendering does NOT produce a page of complete file
lines.  On the five-line file `"a\nb\nc\nd\ne\n"` with height 3, `end()`
lands on marker 5 (a terminator byte) and the rendered page is
`["\n", "d\n", "e\n"]`: it does have exactly 3 entries and ends with the
final line, but its first entry `"\n"` is not a complete line of the file
(the complete lines are `a`..`e`, so only 2 of the 3 entries are file
lines). -/
theorem c4_end_render_eval :
    (pager_end c4file 3 { marker := 0, pos := 0 }).marker = 5
      ∧ (pager_get_page c4file 3
            (pager_end c4file 3 { marker := 0, pos := 0 })).1
          = [['\n'], ['d', '\n'], ['e', '\n']]
      ∧ ['\n'] ∉ fileLines c4file := by
  decide

/-- C5: rendering is pure with respect to the pager: `get_page` leaves
`marker` unchanged, leaves the handle parked back at `marker`, and a
second immediate `get_page` returns the identical entries. -/
theorem c5_render_pure (c : List Char) (rows : Nat) (s : PagerS) :
    (pager_get_page c rows s).2.marker = s.marker
    ∧ (pager_get_page c rows s).2.pos = s.marker.toNat
    ∧ (pager_get_page c rows ((pager_get_page c rows s).2)).1
        = (pager_get_page c rows s).1 :=
  ⟨rfl, rfl, rfl⟩

/-- C6: each pane's viewport height is the floor of the terminal's total
row count divided by the number of files opened
(`rows = ((getheight() + 1) / len(files))` with `getheight()` returning
`ws_row - 1`, so the numerator is exactly `ws_row`). -/
theorem c6_pane_rows_floor_div (ws_row nfiles : Nat) :
    multipager_rows ws_row nfiles = ((ws_row / nfiles : Nat) : Int) := by
  unfold multipager_rows getheight
  have h : ((ws_row : Int) - 1 + 1) = (ws_row : Int) := by ring
  rw [h]
  exact (Int.ofNat_tdiv ws_row nfiles).symm

/-- C7: on a successful external search returning a non-empty ascending
offset list, the focused pager's marker becomes the first offset — which
the ascending hypothesis makes the smallest — and the pane's rendered text
is refreshed from that marker; on a no-match result (tool exits non-zero
with no output) the pane is returned entirely unchanged. -/
theorem c7_search_focused_pane (c : List Char) (rows : Nat) (p : PaneS)
    (l : List Nat) (hne : l ≠ []) (hsorted : l.Pairwise (· ≤ ·)) :
    ((pagerui_search c rows p (some l)).pager.marker
        = ((l.headD 0 : Nat) : Int)
      ∧ (∀ x ∈ l, l.headD 0 ≤ x)
      ∧ (pagerui_search c rows p (some l)).rendered
          = (pager_get_page c rows
              { p.pager with marker := ((l.headD 0 : Nat) : Int) }).1)
    ∧ pagerui_search c rows p none = p := by
  constructor
  · cases l with
    | nil => exact absurd rfl hne
    | cons a t =>
      rw [List.pairwise_cons] at hsorted
      refine ⟨rfl, ?_, rfl⟩
      intro x hx
      rcases List.mem_cons.mp hx with h | h
      · subst h
        exact le_refl _
      · exact hsorted.1 x h
  · rfl

/-- C7 witness: a concrete search on `"ab\ncd"` returning offsets
`[3, 4]`, and a concrete no-match search. -/
theorem c7_search_focused_pane_witness :
    ((pagerui_search abcdFile 1 ⟨{ marker := 0, pos := 0 }, []⟩
          (some [3, 4])).pager.marker = (([3, 4].headD 0 : Nat) : Int)
      ∧ (∀ x ∈ [3, 4], [3, 4].headD 0 ≤ x)
      ∧ (pagerui_search abcdFile 1 ⟨{ marker := 0, pos := 0 }, []⟩
            (some [3, 4])).rendered
          = (pager_get_page abcdFile 1
              { marker := (([3, 4].headD 0 : Nat) : Int), pos := 0 }).1)
    ∧ pagerui_search abcdFile 1 ⟨{ marker := 0, pos := 0 }, []⟩ none
        = ⟨{ marker := 0, pos := 0 }, []⟩ :=
  c7_search_focused_pane abcdFile 1 ⟨{ marker := 0, pos := 0 }, []⟩
    [3, 4] (by decide) (by decide)

/-- C8: `home()` followed by any number of `up()` calls leaves the marker
at 0 — `up()` is the identity on a zero marker. -/
theorem c8_home_then_ups (c : List Char) (lp : Int) (n : Nat) (s : PagerS) :
    (runCmds c lp (List.replicate n Cmd.up) (pager_home s)).marker = 0 := by
  suffices h : ∀ t : PagerS, t.marker = 0 →
      (runCmds c lp (List.replicate n Cmd.up) t).marker = 0 from
    h (pager_home s) rfl
  induction n with
  | zero => exact fun t ht => ht
  | succ n ih =>
    intro t ht
    rw [List.replicate_succ]
    exact ih _ (pager_up_marker_zero c t ht)

/-- C9: when the byte immediately before offset `o` is the line
terminator (so `o` is a line start preceded by a complete terminated
line), the backward scan returns the empty string, and `up()` from marker
`o` therefore moves back exactly one byte, onto that terminator. -/
theorem c9_up_lands_on_terminator (c : List Char) (p o : Nat)
    (h1 : 0 < o) (h2 : o - 1 < c.length)
    (h3 : c.get ⟨o - 1, h2⟩ = '\n') :
    reverse_readline c o = []
    ∧ (pager_up c { marker := (o : Int), pos := p }).marker = (o : Int) - 1 := by
  have hol : o ≤ c.length := by omega
  have hch1 : 1 ≤ min o 8192 := by omega
  have hchle : min o 8192 ≤ o := min_le_left _ _
  have hlen : (fileRead c (o - min o 8192) (min o 8192)).length = min o 8192 := by
    simp only [fileRead, List.length_take, List.length_drop]
    omega
  have hbne : fileRead c (o - min o 8192) (min o 8192) ≠ [] := by
    intro hcon
    rw [hcon] at hlen
    simp at hlen
    omega
  have hlast : (fileRead c (o - min o 8192) (min o 8192)).getLast? = some '\n' := by
    rw [List.getLast?_eq_getElem?, hlen]
    rw [show fileRead c (o - min o 8192) (min o 8192)
          = (c.drop (o - min o 8192)).take (min o 8192) from rfl]
    rw [List.getElem?_take, if_pos (by omega), List.getElem?_drop]
    rw [show o - min o 8192 + (min o 8192 - 1) = o - 1 by omega]
    rw [List.getElem?_eq_getElem h2]
    rw [← h3]
    exact congrArg some (List.get_eq_getElem c ⟨o - 1, h2⟩).symm
  have hdecomp :
      (fileRead c (o - min o 8192) (min o 8192)).dropLast ++ ['\n']
        = fileRead c (o - min o 8192) (min o 8192) :=
    List.dropLast_append_getLast? '\n' (Option.mem_def.mpr hlast)
  have hempty : reverse_readline c o = [] := by
    rw [reverse_readline_eq_getLastD]
    conv_lhs => rw [← hdecomp, splitNl_append_newline]
    simp
  refine ⟨hempty, ?_⟩
  simp only [pager_up, Int.toNat_natCast, hempty, List.length_nil]
  omega

/-- C9 witness: the two-line file `"ab\ncd"` at offset 3 (start of
`"cd"`, preceded by the terminated line `"ab\n"`). -/
theorem c9_up_lands_on_terminator_witness :
    reverse_readline abcdFile 3 = []
    ∧ (pager_up abcdFile { marker := (3 : Int), pos := 0 }).marker
        = (3 : Int) - 1 :=
  c9_up_lands_on_terminator abcdFile 0 3 (by decide) (by decide) (by decide)

/-- C10: rendering always returns exactly `rows` entries for every
marker; and whenever end of file has been reached by the time entry `i`
is read — the handle position after `i` forward line reads from the
marker is at or past end of file, which covers both a marker at end of
file and end of file hit partway through the page after some real lines —
that entry is the empty string. Since a position at end of file never
advances, this makes every remaining entry of the page empty, so a caller
never receives fewer than `rows` entries. -/
theorem c10_page_always_full_length (c : List Char) (rows : Nat)
    (s : PagerS) :
    ((pager_get_page c rows s).1).length = rows
    ∧ ∀ i, i < rows → c.length ≤ advanceLines c s.marker.toNat i →
        ((pager_get_page c rows s).1).getD i [] = [] := by
  constructor
  · exact get_page_go_length c rows _
  · intro i hi hadv
    exact get_page_go_entry_empty c rows s.marker.toNat i hi hadv

/-- C10 witness: the five-byte file `"ab\ncd"` rendered with 3 rows from
marker 3 — end of file is reached mid-page, after the real entry `"cd"` —
yields three entries whose second and third are empty. -/
theorem c10_page_always_full_length_witness :
    ((pager_get_page abcdFile 3 { marker := 3, pos := 0 }).1).length = 3
    ∧ ((pager_get_page abcdFile 3 { marker := 3, pos := 0 }).1).getD 1 [] = []
    ∧ ((pager_get_page abcdFile 3 { marker := 3, pos := 0 }).1).getD 2 [] = [] :=
  ⟨(c10_page_always_full_length abcdFile 3 { marker := 3, pos := 0 }).1,
    (c10_page_always_full_length abcdFile 3 { marker := 3, pos := 0 }).2
      1 (by decide) (by decide),
    (c10_page_always_full_length abcdFile 3 { marker := 3, pos := 0 }).2
      2 (by decide) (by decide)⟩

end Melvin
